import Mathlib

/-!
Verification of the kube-soomkiller node agent (v2 reconciler).

This development shallowly embeds the per-tick detection and eviction loop of
the kube-soomkiller daemon:

* `internal/cgroup/scanner.go` — the pure string functions `ExtractQoS`,
  `ExtractPodUID` and the `memory.max` normalisation `readMemoryMax`;
* the v2 controller (`Controller.reconcile` / `findAndKillOverThreshold` /
  `scanCgroupsForSwap` / `terminatePod`, together with `New`'s protected
  namespace map) — the revision built by the image (the controller using the
  node-scoped `PodInformer` cache and the burstable-QoS cgroup scan).

Go strings are modelled as `List Char`; `float64` swap percentages are
modelled as exact rationals `ℚ` (the properties proved here — maxima,
guards, comparisons — do not depend on rounding); `int64` cgroup readings
are modelled as `Int`.  Filesystem reads and Kubernetes API results are
inputs: a `CgroupFS` provides the recognized container cgroup paths (the
`FindPodCgroups` enumeration) and the per-path result of
`GetContainerMetrics`; a `Cluster` provides the informer cache lookup
`GetPodByUID` and the outcome of each pod delete RPC.  The observable
effects of one tick (delete RPCs issued, Soomkilled events emitted, dry-run
log lines) are collected in a `TickEffects` record.
-/

/-- Go strings, modelled as lists of characters. -/
abbrev Str := List Char

/-- `strings.Contains(s, sub)`: `sub` occurs as a contiguous substring of `s`. -/
def containsSub (sub s : Str) : Bool := decide (sub <:+: s)

/-- `strings.HasSuffix(s, suf)`. -/
def endsWith (suf s : Str) : Bool := decide (suf <:+ s)

/-- `strings.TrimSuffix(s, suf)`: drop `suf` from the end of `s` when present. -/
def dropEnding (suf s : Str) : Str :=
  if endsWith suf s then s.take (s.length - suf.length) else s

/-- `strings.Split(s, sep)` for a one-character separator. -/
def splitOnChar (sep : Char) : Str → List Str
  | [] => [[]]
  | c :: rest =>
    if c = sep then [] :: splitOnChar sep rest
    else
      match splitOnChar sep rest with
      | [] => [[c]]
      | h :: t => (c :: h) :: t

/-- The suffix of `s` after the last occurrence of `m`, or `none` when `m`
does not occur: models `strings.LastIndex(s, m)` followed by slicing
`s[idx+len(m):]`. -/
def afterLast (m : Str) : Str → Option Str
  | [] => if m = [] then some [] else none
  | c :: rest =>
    match afterLast m rest with
    | some r => some r
    | none =>
      if List.isPrefixOf m (c :: rest) then some ((c :: rest).drop m.length)
      else none

/-- `strings.ReplaceAll(s, "_", "-")` for the one-character pattern used by
the scanner. -/
def underscoresToDashes (s : Str) : Str :=
  s.map (fun c => if c = '_' then '-' else c)

/-- `unicode.IsSpace` restricted to the ASCII whitespace that can occur in
cgroup files. -/
def goIsSpace (c : Char) : Bool :=
  (c = ' ') || (c = '\t') || (c = '\n') || (c = '\r') || (c = '\x0b') || (c = '\x0c')

/-- `strings.TrimSpace`. -/
def trimSpace (s : Str) : Str :=
  List.reverse (List.dropWhile goIsSpace (List.reverse (List.dropWhile goIsSpace s)))

/-- Decimal digit string to value; `none` when empty or a non-digit occurs. -/
def decDigitsVal (s : Str) : Option Nat :=
  if s = [] then none
  else
    s.foldl
      (fun acc c =>
        match acc with
        | none => none
        | some n => if c.isDigit then some (n * 10 + (c.toNat - ('0').toNat)) else none)
      (some 0)

/-- `strconv.ParseInt(s, 10, 64)`: optional sign, decimal digits, must fit in
a signed 64-bit integer; `none` models a parse error. -/
def goParseInt64 (s : Str) : Option Int :=
  match s with
  | [] => none
  | c :: rest =>
    let signed : Bool × Str :=
      if c = '-' then (true, rest) else if c = '+' then (false, rest) else (false, s)
    match decDigitsVal signed.2 with
    | none => none
    | some n =>
      let v : Int := if signed.1 then -(n : Int) else (n : Int)
      if v < -(2 ^ 63) ∨ 2 ^ 63 - 1 < v then none else some v

/-! String constants used by the scanner and controller. -/

def strBurstable : Str := ("burstable").toList

def strBesteffort : Str := ("besteffort").toList

def strGuaranteed : Str := ("guaranteed").toList

def strKubepodsBurstable : Str := ("kubepods-burstable").toList

def strKubepodsBesteffort : Str := ("kubepods-besteffort").toList

def strKubepodsSlice : Str := ("kubepods.slice").toList

def strSliceDotted : Str := (".slice").toList

def strPodMarker : Str := ("-pod").toList

def strMaxLit : Str := ("max").toList

/-! ## Cgroup scanner (`internal/cgroup/scanner.go`) -/

/-- `ExtractQoS`: QoS class of a cgroup path by substring inspection. -/
def extractQoS (cgroupPath : Str) : Str :=
  if containsSub strKubepodsBurstable cgroupPath then strBurstable
  else if containsSub strKubepodsBesteffort cgroupPath then strBesteffort
  else if containsSub strKubepodsSlice cgroupPath then strGuaranteed
  else []

/-- The component loop of `ExtractPodUID`: for each path component suffixed
`.slice`, trim the suffix, look for the last `-pod` marker, and return the
dash-normalised remainder (skipping empty extractions). -/
def extractPodUIDFromParts : List Str → Str
  | [] => []
  | part :: rest =>
    if endsWith strSliceDotted part then
      match afterLast strPodMarker (dropEnding strSliceDotted part) with
      | some uid =>
        if uid = [] then extractPodUIDFromParts rest else underscoresToDashes uid
      | none => extractPodUIDFromParts rest
    else extractPodUIDFromParts rest

/-- `ExtractPodUID`: pod UID from a cgroup path, with underscores converted
to dashes; `[]` models the empty string (no UID found). -/
def extractPodUID (cgroupPath : Str) : Str :=
  extractPodUIDFromParts (splitOnChar '/' cgroupPath)

/-- `readMemoryMax` applied to the trimmed file content: the literal `max`
becomes the sentinel `2^62`, otherwise the content is parsed as an `int64`;
`none` models a read/parse error. -/
def readMemoryMax (content : Str) : Option Int :=
  let t := trimSpace content
  if t = strMaxLit then some (2 ^ 62) else goParseInt64 t

/-! ## Data model of the v2 controller -/

/-- PSI readings of `memory.pressure` (carried by `ContainerMetrics`; not
consulted by the v2 decision logic). -/
structure PSI where
  someAvg10 : ℚ
  someAvg60 : ℚ
  someAvg300 : ℚ
  someTotal : ℕ
  fullAvg10 : ℚ
  fullAvg60 : ℚ
  fullAvg300 : ℚ
  fullTotal : ℕ
deriving DecidableEq

/-- The all-zero PSI record. -/
def psiZero : PSI := ⟨0, 0, 0, 0, 0, 0, 0, 0⟩

/-- `ContainerMetrics` as returned by `GetContainerMetrics`. -/
structure ContainerMetrics where
  swapCurrent : Int
  memoryCurrent : Int
  memoryMax : Int
  psi : PSI
deriving DecidableEq

/-- The informer cache's view of a pod (`corev1.Pod` restricted to the fields
the controller reads): UID, namespace, name and the deletion timestamp
(`none` models a nil `DeletionTimestamp`). -/
structure PodView where
  uid : Str
  ns : Str
  name : Str
  deletionTimestamp : Option Int
deriving DecidableEq

/-- `PodCandidate` of the v2 controller: namespace and name are empty until
the candidate is resolved against the informer cache. -/
structure PodCandidate where
  uid : Str
  ns : Str
  name : Str
  swapPercent : ℚ
deriving DecidableEq

/-- Controller `Config` (fields consulted by the per-tick logic;
`hasEventRecorder` models `EventRecorder != nil`). -/
structure Config where
  nodeName : Str
  pollIntervalSeconds : ℚ
  swapThresholdPercent : ℚ
  dryRun : Bool
  protectedNamespaces : List Str
  hasEventRecorder : Bool

/-- `New`: the protected-namespace loop builds a membership map used for
`O(1)` lookup (`protectedNS[ns] = true` for each configured namespace). -/
def buildProtectedMap (l : List Str) : Str → Bool :=
  l.foldl (fun m ns => fun x => if x = ns then true else m x) (fun _ => false)

/-- The cgroup filesystem as seen by one tick: `paths` is the recognized
cgroup list returned by `FindPodCgroups` (in enumeration order) and
`metricsOf` the per-path result of `GetContainerMetrics` (`none` models a
read error, which makes the controller skip that container). -/
structure CgroupFS where
  paths : List Str
  metricsOf : Str → Option ContainerMetrics

/-- A Kubernetes delete error as distinguished by the spec: `notFound` or
anything else. -/
inductive K8sErr where
  | notFound : K8sErr
  | other : Nat → K8sErr
deriving DecidableEq

/-- The cluster as seen by one tick: the informer cache lookup
`GetPodByUID` and the outcome each pod delete RPC would have (`none` models
a successful delete). -/
structure Cluster where
  cache : Str → Option PodView
  deleteOutcome : Str → Str → Option K8sErr

/-- The error value returned by `terminatePod` on a failed delete: models
`fmt.Errorf("failed to delete pod %s/%s: %w", ...)` wrapping the API error. -/
inductive GoErr where
  | deleteFailed : Str → Str → K8sErr → GoErr
deriving DecidableEq

/-- One delete RPC issued by the controller: the namespace and name passed to
`Pods(ns).Delete(name)`, the candidate UID that was resolved before the call
(provenance), and the RPC outcome supplied by the cluster. -/
structure DeleteCall where
  uid : Str
  ns : Str
  name : Str
  result : Option K8sErr
deriving DecidableEq

/-- A `Soomkilled` Kubernetes event emitted by `terminatePod`, with the
fields of the message template. -/
structure SoomEvent where
  podUid : Str
  podName : Str
  nodeName : Str
  swapPercent : ℚ
deriving DecidableEq

/-- Observable effects of (part of) one tick: delete RPCs issued, events
emitted, and the number of dry-run `Would delete pod` log lines. -/
structure TickEffects where
  deleteCalls : List DeleteCall
  events : List SoomEvent
  wouldDeleteLogs : Nat
deriving DecidableEq

/-- No effects. -/
def noEffects : TickEffects := ⟨[], [], 0⟩

/-- Concatenation of effects of consecutive actions. -/
def appendEffects (a b : TickEffects) : TickEffects :=
  ⟨a.deleteCalls ++ b.deleteCalls, a.events ++ b.events,
    a.wouldDeleteLogs + b.wouldDeleteLogs⟩

/-! ## The scan phase (`scanCgroupsForSwap`) -/

/-- The per-container swap percentage computed inline by
`scanCgroupsForSwap`: `swap_current / memory_max * 100` guarded by
`memory_max > 0` (otherwise the declared zero value is kept). -/
def containerSwapPercent (m : ContainerMetrics) : ℚ :=
  if 0 < m.memoryMax then (m.swapCurrent : ℚ) / (m.memoryMax : ℚ) * 100 else 0

/-- The `processedPods` map update: an existing entry for the UID keeps the
larger swap percentage (`if swapPercent > existing.SwapPercent`), a new UID
is inserted. -/
def updateMax : List (Str × ℚ) → Str → ℚ → List (Str × ℚ)
  | [], uid, sp => [(uid, sp)]
  | (k, v) :: rest, uid, sp =>
    if k = uid then (k, if sp > v then sp else v) :: rest
    else (k, v) :: updateMax rest uid sp

/-- One iteration of the `scanCgroupsForSwap` loop over a recognized cgroup
path: skip unless burstable, skip on empty UID, skip on metrics read error,
skip when no swap is used, otherwise fold the container percentage into the
per-UID map. -/
def scanStep (fs : CgroupFS) (acc : List (Str × ℚ)) (p : Str) : List (Str × ℚ) :=
  if extractQoS p ≠ strBurstable then acc
  else if extractPodUID p = [] then acc
  else
    match fs.metricsOf p with
    | none => acc
    | some m =>
      if m.swapCurrent = 0 then acc
      else updateMax acc (extractPodUID p) (containerSwapPercent m)

/-- The `processedPods` association list after the scan loop. -/
def scanAssoc (fs : CgroupFS) : List (Str × ℚ) :=
  fs.paths.foldl (scanStep fs) []

/-- `scanCgroupsForSwap`: candidates carry only UID and aggregated swap
percentage; namespace and name stay empty until resolution. -/
def scanCgroupsForSwap (fs : CgroupFS) : List PodCandidate :=
  (scanAssoc fs).map (fun e => ⟨e.1, [], [], e.2⟩)

/-! ## The deletion path (`terminatePod`) -/

/-- `terminatePod`: on dry-run, log and return success without touching the
API; otherwise emit the `Soomkilled` event when a recorder is configured and
the pod is found in the cache, then issue the delete RPC, wrapping any error
(the delete error — `NotFound` included — is returned as a failure). -/
def terminatePod (cfg : Config) (cl : Cluster) (cand : PodCandidate) :
    TickEffects × Except GoErr Unit :=
  if cfg.dryRun then (⟨[], [], 1⟩, Except.ok ())
  else
    let evs : List SoomEvent :=
      if cfg.hasEventRecorder then
        match cl.cache cand.uid with
        | some pod => [⟨pod.uid, cand.name, cfg.nodeName, cand.swapPercent⟩]
        | none => []
      else []
    match cl.deleteOutcome cand.ns cand.name with
    | some e =>
      (⟨[⟨cand.uid, cand.ns, cand.name, some e⟩], evs, 0⟩,
        Except.error (GoErr.deleteFailed cand.ns cand.name e))
    | none => (⟨[⟨cand.uid, cand.ns, cand.name, none⟩], evs, 0⟩, Except.ok ())

/-! ## Resolve, sort, act (`findAndKillOverThreshold`) -/

/-- The resolve loop: look each over-threshold candidate up in the informer
cache; skip unknown UIDs, pods already terminating, and protected
namespaces; populate namespace and name from the cached pod. -/
def resolveCandidates (prot : Str → Bool) (cl : Cluster) :
    List PodCandidate → List PodCandidate
  | [] => []
  | cand :: rest =>
    match cl.cache cand.uid with
    | none => resolveCandidates prot cl rest
    | some pod =>
      if (pod.deletionTimestamp).isSome then resolveCandidates prot cl rest
      else if prot pod.ns then resolveCandidates prot cl rest
      else ⟨cand.uid, pod.ns, pod.name, cand.swapPercent⟩ ::
        resolveCandidates prot cl rest

/-- Insertion into a list sorted by descending swap percentage. -/
def insertBySwapDesc (c : PodCandidate) : List PodCandidate → List PodCandidate
  | [] => [c]
  | d :: rest =>
    if c.swapPercent > d.swapPercent then c :: d :: rest
    else d :: insertBySwapDesc c rest

/-- The `sort.Slice(resolved, SwapPercent descending)` step (Go leaves the
order of ties unspecified; the claims proved below never depend on it). -/
def sortBySwapDesc : List PodCandidate → List PodCandidate
  | [] => []
  | c :: rest => insertBySwapDesc c (sortBySwapDesc rest)

/-- The act loop: invoke `terminatePod` on each resolved candidate; failures
are logged and skipped (`continue`), successes increment the local `killed`
counter. Returns the accumulated effects and `killed`. -/
def actOnCandidates (cfg : Config) (cl : Cluster) :
    List PodCandidate → TickEffects × Nat
  | [] => (noEffects, 0)
  | cand :: rest =>
    let head := terminatePod cfg cl cand
    let tail := actOnCandidates cfg cl rest
    (appendEffects head.1 tail.1,
      (match head.2 with | Except.ok _ => 1 | Except.error _ => 0) + tail.2)

/-- `findAndKillOverThreshold`: scan, early-return when nothing uses swap,
filter strictly above the threshold, early-return when nothing is over,
resolve against the cache, early-return when nothing is killable, then act
on the candidates sorted by descending swap percentage. -/
def findAndKillOverThreshold (cfg : Config) (cl : Cluster) (fs : CgroupFS) :
    TickEffects × Nat :=
  let candidates := scanCgroupsForSwap fs
  if candidates = [] then (noEffects, 0)
  else
    let overThreshold :=
      candidates.filter (fun c => c.swapPercent > cfg.swapThresholdPercent)
    if overThreshold = [] then (noEffects, 0)
    else
      let resolved :=
        resolveCandidates (buildProtectedMap cfg.protectedNamespaces) cl overThreshold
      if resolved = [] then (noEffects, 0)
      else actOnCandidates cfg cl (sortBySwapDesc resolved)

/-- The Prometheus counters owned by the termination path
(`soomkiller_pods_killed_total` and `soomkiller_last_kill_timestamp_seconds`). -/
structure MetricsState where
  podsKilledTotal : ℚ
  lastKillTimestamp : ℚ
deriving DecidableEq

/-- `reconcile` of the v2 controller simply runs `findAndKillOverThreshold`;
the metrics registry is threaded through unchanged because no statement of
the v2 controller writes `PodsKilledTotal` or `LastKillTimestamp` (the
counters are registered in `main.go` but never incremented by this
revision). -/
def reconcile (cfg : Config) (cl : Cluster) (fs : CgroupFS) (ms : MetricsState) :
    (TickEffects × Nat) × MetricsState :=
  (findAndKillOverThreshold cfg cl fs, ms)

/-- `n` consecutive ticks against an unchanged cluster and filesystem (the
v2 reconciler is stateless across ticks), accumulating effects. -/
def runTicks (cfg : Config) (cl : Cluster) (fs : CgroupFS) : Nat → TickEffects
  | 0 => noEffects
  | n + 1 =>
    appendEffects (findAndKillOverThreshold cfg cl fs).1 (runTicks cfg cl fs n)

/-! ## Derived observations used in the statements -/

/-- Association-list lookup: the value stored for `uid` in the
`processedPods` map. -/
def findVal (uid : Str) : List (Str × ℚ) → Option ℚ
  | [] => none
  | (k, v) :: rest => if k = uid then some v else findVal uid rest

/-- The value kept by one `processedPods` update: the incoming percentage
when the UID is new, otherwise the larger of old and new
(`if swapPercent > existing` of the source). -/
def stepMax (o : Option ℚ) (r : ℚ) : ℚ :=
  match o with
  | none => r
  | some v => if r > v then r else v

/-- `stepMax` wrapped back into an `Option`. -/
def foldStep (o : Option ℚ) (r : ℚ) : Option ℚ := some (stepMax o r)

/-- Folding a list of container percentages into an optional running
maximum. -/
def foldMax (o : Option ℚ) (rs : List ℚ) : Option ℚ := rs.foldl foldStep o

/-- Whether a recognized cgroup path survives every skip of the
`scanCgroupsForSwap` loop and contributes to the entry of pod `uid`:
burstable QoS, this pod's UID (non-empty), readable metrics, non-zero swap. -/
def contributes (fs : CgroupFS) (uid : Str) (p : Str) : Bool :=
  decide (extractQoS p = strBurstable) && decide (extractPodUID p = uid) &&
    !(decide (extractPodUID p = [])) &&
    (match fs.metricsOf p with
     | none => false
     | some m => !(decide (m.swapCurrent = 0)))

/-- The container percentage a path contributes (zero on a metrics read
error, in which case `contributes` is false anyway). -/
def swapPctOf (fs : CgroupFS) (p : Str) : ℚ :=
  match fs.metricsOf p with
  | some m => containerSwapPercent m
  | none => 0

/-- The multiset of container percentages contributing to pod `uid` over a
path list. -/
def contribRatios (fs : CgroupFS) (uid : Str) (l : List Str) : List ℚ :=
  (l.filter (contributes fs uid)).map (swapPctOf fs)

/-- The delete RPCs issued by one tick. -/
def tickDeleteCalls (cfg : Config) (cl : Cluster) (fs : CgroupFS) : List DeleteCall :=
  (findAndKillOverThreshold cfg cl fs).1.deleteCalls

/-- The set of pods targeted for deletion by one tick. -/
def tickTargetSet (cfg : Config) (cl : Cluster) (fs : CgroupFS) : Finset DeleteCall :=
  (tickDeleteCalls cfg cl fs).toFinset

/-- A burstable container cgroup path embedding the given pod UID in its
pod slice component (the path form of spec scenario S8). -/
def burstablePodPath (uid : Str) : Str :=
  (("kubepods.slice/kubepods-burstable.slice/kubepods-burstable-pod").toList)
    ++ uid ++ ((".slice/cri-containerd-abc.scope").toList)

/-! ## Concrete inputs used by the closed instances -/

def wUid : Str := ("aaaa1111-2222-3333-4444-555566667777").toList

def wUid2 : Str := ("bbbb1111-2222-3333-4444-555566667777").toList

def wPathA : Str :=
  (("kubepods.slice/kubepods-burstable.slice/" ++
    "kubepods-burstable-podaaaa1111_2222_3333_4444_555566667777.slice/" ++
    "cri-containerd-abc.scope")).toList

def wPathB : Str :=
  (("kubepods.slice/kubepods-burstable.slice/" ++
    "kubepods-burstable-podaaaa1111_2222_3333_4444_555566667777.slice/" ++
    "cri-containerd-def.scope")).toList

def wNsDefault : Str := ("default").toList

def wNsKube : Str := ("kube-system").toList

def wNameVictim : Str := ("victim").toList

def wNode : Str := ("node1").toList

/-- Swap 1 byte against an 8-byte limit: 12.5 %. -/
def wMetricsA : ContainerMetrics := ⟨1, 4, 8, psiZero⟩

/-- Swap 1 byte against a 2-byte limit: 50 %. -/
def wMetricsB : ContainerMetrics := ⟨1, 4, 2, psiZero⟩

def wFS : CgroupFS :=
  ⟨[wPathA], fun p => if p = wPathA then some wMetricsA else none⟩

def wFS2 : CgroupFS :=
  ⟨[wPathA, wPathB], fun p =>
    if p = wPathA then some wMetricsA
    else if p = wPathB then some wMetricsB else none⟩

def wPod : PodView := ⟨wUid, wNsDefault, wNameVictim, none⟩

def wPodTerm : PodView := ⟨wUid2, wNsDefault, ("victim2").toList, some 5⟩

def wCluster : Cluster :=
  ⟨fun u => if u = wUid then some wPod else none, fun _ _ => none⟩

def wCluster2 : Cluster :=
  ⟨fun u =>
    if u = wUid then some wPod else if u = wUid2 then some wPodTerm else none,
    fun _ _ => none⟩

def wClusterNF : Cluster :=
  ⟨fun u => if u = wUid then some wPod else none,
    fun _ _ => some K8sErr.notFound⟩

def wCfg : Config := ⟨wNode, 1, 1, false, [wNsKube], true⟩

def wCfgDry : Config := ⟨wNode, 1, 1, true, [wNsKube], true⟩

def wCand : PodCandidate := ⟨wUid, wNsDefault, wNameVictim, 25 / 2⟩

/-! ## Lemmas: the protected-namespace map -/

/-- Unfolding one step of the `New` loop. -/
theorem buildProtectedMap_foldl (l : List Str) (m : Str → Bool) (x : Str) :
    (l.foldl (fun m ns => fun y => if y = ns then true else m y) m) x =
      (m x || decide (x ∈ l)) := by
  induction l generalizing m with
  | nil => simp
  | cons ns rest ih =>
    simp only [List.foldl_cons, ih, List.mem_cons]
    by_cases hx : x = ns <;> simp [hx]

/-- The map built by `New` is exactly membership in the configured list. -/
theorem buildProtectedMap_eq_mem (l : List Str) (x : Str) :
    buildProtectedMap l x = true ↔ x ∈ l := by
  unfold buildProtectedMap
  rw [buildProtectedMap_foldl]
  simp

/-! ## Lemmas: the `processedPods` map -/

theorem findVal_updateMax_self (acc : List (Str × ℚ)) (uid : Str) (sp : ℚ) :
    findVal uid (updateMax acc uid sp) = some (stepMax (findVal uid acc) sp) := by
  induction acc with
  | nil => simp [updateMax, findVal, stepMax]
  | cons e rest ih =>
    obtain ⟨k, v⟩ := e
    by_cases hk : k = uid
    · subst hk
      simp [updateMax, findVal, stepMax]
    · simp [updateMax, findVal, hk, ih]

theorem findVal_updateMax_other (acc : List (Str × ℚ)) (uid k : Str) (sp : ℚ)
    (hk : k ≠ uid) :
    findVal k (updateMax acc uid sp) = findVal k acc := by
  induction acc with
  | nil =>
    have h : ¬ uid = k := fun h => hk h.symm
    simp [updateMax, findVal, h]
  | cons e rest ih =>
    obtain ⟨k₀, v₀⟩ := e
    by_cases h₀ : k₀ = uid
    · subst h₀
      have h : ¬ k₀ = k := fun h => hk h.symm
      simp [updateMax, findVal, h]
    · by_cases h₁ : k₀ = k <;> simp [updateMax, findVal, h₀, h₁, hk, ih]

theorem keys_updateMax (acc : List (Str × ℚ)) (uid : Str) (sp : ℚ) :
    (updateMax acc uid sp).map Prod.fst =
      if uid ∈ acc.map Prod.fst then acc.map Prod.fst
      else acc.map Prod.fst ++ [uid] := by
  induction acc with
  | nil => simp [updateMax]
  | cons e rest ih =>
    obtain ⟨k, v⟩ := e
    by_cases hk : k = uid
    · subst hk
      simp [updateMax]
    · have : uid ≠ k := fun h => hk h.symm
      by_cases hm : uid ∈ rest.map Prod.fst <;>
        simp [updateMax, hk, this, hm, ih]

theorem nodup_keys_updateMax (acc : List (Str × ℚ)) (uid : Str) (sp : ℚ)
    (h : (acc.map Prod.fst).Nodup) :
    ((updateMax acc uid sp).map Prod.fst).Nodup := by
  rw [keys_updateMax]
  by_cases hm : uid ∈ acc.map Prod.fst
  · simpa [hm] using h
  · simp only [hm, if_false, List.nodup_append]
    refine ⟨h, List.nodup_singleton uid, ?_⟩
    intro a ha hb
    rw [List.mem_singleton] at hb
    subst hb
    exact hm ha

theorem nodup_keys_scanStep (fs : CgroupFS) (acc : List (Str × ℚ)) (p : Str)
    (h : (acc.map Prod.fst).Nodup) :
    ((scanStep fs acc p).map Prod.fst).Nodup := by
  unfold scanStep
  repeat' split
  all_goals first | exact h | exact nodup_keys_updateMax _ _ _ h

theorem nodup_keys_foldl_scanStep (fs : CgroupFS) :
    ∀ (l : List Str) (acc : List (Str × ℚ)), (acc.map Prod.fst).Nodup →
      ((l.foldl (scanStep fs) acc).map Prod.fst).Nodup := by
  intro l
  induction l with
  | nil => intro acc h; simpa using h
  | cons p rest ih =>
    intro acc h
    exact ih _ (nodup_keys_scanStep fs acc p h)

theorem nodup_keys_scanAssoc (fs : CgroupFS) :
    ((scanAssoc fs).map Prod.fst).Nodup :=
  nodup_keys_foldl_scanStep fs fs.paths [] (by simp)

theorem mem_of_findVal_some {uid : Str} {v : ℚ} :
    ∀ {l : List (Str × ℚ)}, findVal uid l = some v → (uid, v) ∈ l := by
  intro l
  induction l with
  | nil => simp [findVal]
  | cons e rest ih =>
    obtain ⟨k, w⟩ := e
    intro h
    by_cases hk : k = uid
    · subst hk
      rw [findVal, if_pos rfl] at h
      cases h
      exact List.mem_cons_self _ _
    · rw [findVal, if_neg hk] at h
      exact List.mem_cons_of_mem _ (ih h)

theorem findVal_of_mem_nodup {uid : Str} {v : ℚ} :
    ∀ {l : List (Str × ℚ)}, (l.map Prod.fst).Nodup → (uid, v) ∈ l →
      findVal uid l = some v := by
  intro l
  induction l with
  | nil => simp
  | cons e rest ih =>
    obtain ⟨k, w⟩ := e
    intro hnd hmem
    rcases List.mem_cons.mp hmem with heq | htl
    · rw [Prod.mk.injEq] at heq
      obtain ⟨rfl, rfl⟩ := heq
      simp [findVal]
    · by_cases hk : k = uid
      · subst hk
        exfalso
        have : k ∈ rest.map Prod.fst := List.mem_map.mpr ⟨(k, v), htl, rfl⟩
        exact (List.nodup_cons.mp (by simpa using hnd)).1 this
      · have : (rest.map Prod.fst).Nodup := (List.nodup_cons.mp (by simpa using hnd)).2
        simp [findVal, hk, ih this htl]

/-! ## Lemmas: characterising the scan phase -/

theorem contribRatios_nil (fs : CgroupFS) (uid : Str) :
    contribRatios fs uid [] = [] := rfl

theorem contribRatios_cons (fs : CgroupFS) (uid p : Str) (l : List Str) :
    contribRatios fs uid (p :: l) =
      if contributes fs uid p then swapPctOf fs p :: contribRatios fs uid l
      else contribRatios fs uid l := by
  by_cases h : contributes fs uid p <;> simp [contribRatios, List.filter_cons, h]

theorem findVal_foldl_scanStep (fs : CgroupFS) (uid : Str) :
    ∀ (l : List Str) (acc : List (Str × ℚ)),
      findVal uid (l.foldl (scanStep fs) acc) =
        foldMax (findVal uid acc) (contribRatios fs uid l) := by
  intro l
  induction l with
  | nil => intro acc; simp [contribRatios, foldMax]
  | cons p rest ih =>
    intro acc
    rw [List.foldl_cons, ih, contribRatios_cons]
    by_cases hq : extractQoS p = strBurstable
    · by_cases hu : extractPodUID p = []
      · have hs : scanStep fs acc p = acc := by simp [scanStep, hq, hu]
        have hc : contributes fs uid p = false := by simp [contributes, hu]
        rw [hs, hc, if_neg (by simp)]
      · cases hm : fs.metricsOf p with
        | none =>
          have hs : scanStep fs acc p = acc := by simp [scanStep, hq, hu, hm]
          have hc : contributes fs uid p = false := by simp [contributes, hm]
          rw [hs, hc, if_neg (by simp)]
        | some m =>
          by_cases hz : m.swapCurrent = 0
          · have hs : scanStep fs acc p = acc := by simp [scanStep, hq, hu, hm, hz]
            have hc : contributes fs uid p = false := by simp [contributes, hm, hz]
            rw [hs, hc, if_neg (by simp)]
          · by_cases he : extractPodUID p = uid
            · have hu2 : ¬ uid = [] := he ▸ hu
              have hs : scanStep fs acc p =
                  updateMax acc uid (containerSwapPercent m) := by
                simp [scanStep, hq, hu, hm, hz, he, hu2]
              have hc : contributes fs uid p = true := by
                simp [contributes, hq, he, hu2, hm, hz]
              rw [hs, hc, if_pos (by simp), findVal_updateMax_self]
              unfold foldMax
              rw [List.foldl_cons]
              have : foldStep (findVal uid acc) (swapPctOf fs p) =
                  some (stepMax (findVal uid acc) (containerSwapPercent m)) := by
                simp [foldStep, swapPctOf, hm]
              rw [this]
            · have hs : scanStep fs acc p =
                  updateMax acc (extractPodUID p) (containerSwapPercent m) := by
                simp [scanStep, hq, hu, hm, hz]
              have hc : contributes fs uid p = false := by simp [contributes, he]
              rw [hs, hc, if_neg (by simp),
                findVal_updateMax_other _ _ _ _ (fun h => he h.symm)]
    · have hs : scanStep fs acc p = acc := by simp [scanStep, hq]
      have hc : contributes fs uid p = false := by simp [contributes, hq]
      rw [hs, hc, if_neg (by simp)]

/-- The value stored for `uid` by the scan is the fold of its contributing
container percentages. -/
theorem findVal_scanAssoc (fs : CgroupFS) (uid : Str) :
    findVal uid (scanAssoc fs) = foldMax none (contribRatios fs uid fs.paths) := by
  unfold scanAssoc
  rw [findVal_foldl_scanStep]
  rfl

/-! ## Lemmas: `foldMax` computes the maximum -/

theorem le_stepMax_left (v r : ℚ) : v ≤ stepMax (some v) r := by
  simp only [stepMax]
  split
  · exact le_of_lt (by assumption)
  · exact le_refl v

theorem le_stepMax_right (v r : ℚ) : r ≤ stepMax (some v) r := by
  simp only [stepMax]
  split
  · exact le_refl r
  · exact not_lt.mp (by assumption)

theorem stepMax_eq_or (v r : ℚ) :
    stepMax (some v) r = v ∨ stepMax (some v) r = r := by
  simp only [stepMax]
  split
  · exact Or.inr rfl
  · exact Or.inl rfl

theorem foldMax_cons_some (v r : ℚ) (rest : List ℚ) :
    foldMax (some v) (r :: rest) = foldMax (some (stepMax (some v) r)) rest := rfl

theorem foldMax_none_cons (r : ℚ) (rest : List ℚ) :
    foldMax none (r :: rest) = foldMax (some r) rest := rfl

theorem foldMax_exists_max (rs : List ℚ) :
    ∀ v : ℚ, ∃ w, foldMax (some v) rs = some w ∧ (w = v ∨ w ∈ rs) ∧ v ≤ w ∧
      ∀ r ∈ rs, r ≤ w := by
  induction rs with
  | nil => intro v; exact ⟨v, rfl, Or.inl rfl, le_refl v, by simp⟩
  | cons r rest ih =>
    intro v
    obtain ⟨w, hw, hmem, hle, hub⟩ := ih (stepMax (some v) r)
    refine ⟨w, by rw [foldMax_cons_some]; exact hw, ?_, ?_, ?_⟩
    · rcases hmem with h | h
      · rcases stepMax_eq_or v r with h2 | h2
        · exact Or.inl (h.trans h2)
        · exact Or.inr (List.mem_cons.mpr (Or.inl (h.trans h2)))
      · exact Or.inr (List.mem_cons.mpr (Or.inr h))
    · exact (le_stepMax_left v r).trans hle
    · intro x hx
      rcases List.mem_cons.mp hx with h | h
      · exact h ▸ (le_stepMax_right v r).trans hle
      · exact hub x h

theorem foldMax_none_char (rs : List ℚ) (hne : rs ≠ []) :
    ∃ w, foldMax none rs = some w ∧ w ∈ rs ∧ ∀ r ∈ rs, r ≤ w := by
  cases rs with
  | nil => exact absurd rfl hne
  | cons r rest =>
    obtain ⟨w, hw, hmem, hle, hub⟩ := foldMax_exists_max rest r
    refine ⟨w, by rw [foldMax_none_cons]; exact hw, ?_, ?_⟩
    · rcases hmem with h | h
      · exact h ▸ List.mem_cons_self _ _
      · exact List.mem_cons_of_mem _ h
    · intro x hx
      rcases List.mem_cons.mp hx with h | h
      · exact h ▸ hle
      · exact hub x h

theorem foldMax_none_perm {rs₁ rs₂ : List ℚ} (h : rs₁.Perm rs₂) :
    foldMax none rs₁ = foldMax none rs₂ := by
  cases rs₁ with
  | nil =>
    have h2 : rs₂ = [] := (h.symm).eq_nil
    rw [h2]
  | cons r rest =>
    have hne₁ : (r :: rest) ≠ [] := by simp
    have hne₂ : rs₂ ≠ [] := by
      intro h2
      rw [h2] at h
      exact hne₁ h.eq_nil
    obtain ⟨w₁, e₁, m₁, u₁⟩ := foldMax_none_char _ hne₁
    obtain ⟨w₂, e₂, m₂, u₂⟩ := foldMax_none_char _ hne₂
    rw [e₁, e₂, le_antisymm (u₂ w₁ (h.mem_iff.mp m₁)) (u₁ w₂ (h.mem_iff.mpr m₂))]

/-! ## Lemmas: resolve, sort and act -/

theorem mem_resolveCandidates (prot : Str → Bool) (cl : Cluster) (c : PodCandidate) :
    ∀ l : List PodCandidate,
      c ∈ resolveCandidates prot cl l ↔
        ∃ c₀ ∈ l, ∃ pv, cl.cache c₀.uid = some pv ∧
          pv.deletionTimestamp = none ∧ prot pv.ns = false ∧
          c = ⟨c₀.uid, pv.ns, pv.name, c₀.swapPercent⟩ := by
  intro l
  induction l with
  | nil => simp [resolveCandidates]
  | cons d rest ih =>
    simp only [resolveCandidates]
    cases hcc : cl.cache d.uid with
    | none =>
      dsimp only
      rw [ih]
      constructor
      · rintro ⟨c₀, hmem, pv, h1, h2, h3, h4⟩
        exact ⟨c₀, List.mem_cons_of_mem _ hmem, pv, h1, h2, h3, h4⟩
      · rintro ⟨c₀, hmem, pv, h1, h2, h3, h4⟩
        rcases List.mem_cons.mp hmem with rfl | hm
        · rw [hcc] at h1
          cases h1
        · exact ⟨c₀, hm, pv, h1, h2, h3, h4⟩
    | some pod =>
      dsimp only
      by_cases hdt : (pod.deletionTimestamp).isSome = true
      · rw [if_pos hdt, ih]
        constructor
        · rintro ⟨c₀, hmem, pv, h1, h2, h3, h4⟩
          exact ⟨c₀, List.mem_cons_of_mem _ hmem, pv, h1, h2, h3, h4⟩
        · rintro ⟨c₀, hmem, pv, h1, h2, h3, h4⟩
          rcases List.mem_cons.mp hmem with rfl | hm
          · rw [hcc] at h1
            injection h1 with h1
            subst h1
            rw [h2] at hdt
            cases hdt
          · exact ⟨c₀, hm, pv, h1, h2, h3, h4⟩
      · by_cases hpr : prot pod.ns = true
        · rw [if_neg hdt, if_pos hpr, ih]
          constructor
          · rintro ⟨c₀, hmem, pv, h1, h2, h3, h4⟩
            exact ⟨c₀, List.mem_cons_of_mem _ hmem, pv, h1, h2, h3, h4⟩
          · rintro ⟨c₀, hmem, pv, h1, h2, h3, h4⟩
            rcases List.mem_cons.mp hmem with rfl | hm
            · rw [hcc] at h1
              injection h1 with h1
              subst h1
              rw [h3] at hpr
              cases hpr
            · exact ⟨c₀, hm, pv, h1, h2, h3, h4⟩
        · rw [if_neg hdt, if_neg hpr, List.mem_cons, ih]
          constructor
          · rintro (rfl | ⟨c₀, hm, pv, h1, h2, h3, h4⟩)
            · exact ⟨d, List.mem_cons_self _ _, pod, hcc,
                Option.not_isSome_iff_eq_none.mp hdt,
                Bool.eq_false_iff.mpr hpr, rfl⟩
            · exact ⟨c₀, List.mem_cons_of_mem _ hm, pv, h1, h2, h3, h4⟩
          · rintro ⟨c₀, hm, pv, h1, h2, h3, h4⟩
            rcases List.mem_cons.mp hm with rfl | hm2
            · rw [hcc] at h1
              injection h1 with h1
              subst h1
              exact Or.inl h4
            · exact Or.inr ⟨c₀, hm2, pv, h1, h2, h3, h4⟩

theorem mem_insertBySwapDesc (c x : PodCandidate) :
    ∀ l, x ∈ insertBySwapDesc c l ↔ x = c ∨ x ∈ l := by
  intro l
  induction l with
  | nil => simp [insertBySwapDesc]
  | cons d rest ih =>
    simp only [insertBySwapDesc]
    split
    · simp only [List.mem_cons]
    · rw [List.mem_cons, ih, List.mem_cons]
      tauto

theorem mem_sortBySwapDesc (x : PodCandidate) :
    ∀ l, x ∈ sortBySwapDesc l ↔ x ∈ l := by
  intro l
  induction l with
  | nil => simp [sortBySwapDesc]
  | cons c rest ih =>
    simp only [sortBySwapDesc]
    rw [mem_insertBySwapDesc, ih, List.mem_cons]

theorem act_deleteCalls (cfg : Config) (cl : Cluster) :
    ∀ l : List PodCandidate,
      (actOnCandidates cfg cl l).1.deleteCalls =
        if cfg.dryRun then []
        else l.map (fun c =>
          (⟨c.uid, c.ns, c.name, cl.deleteOutcome c.ns c.name⟩ : DeleteCall)) := by
  intro l
  induction l with
  | nil => cases hd : cfg.dryRun <;> simp [actOnCandidates, noEffects]
  | cons c rest ih =>
    simp only [actOnCandidates, appendEffects]
    cases hd : cfg.dryRun with
    | true => simp [terminatePod, hd, ih]
    | false =>
      cases ho : cl.deleteOutcome c.ns c.name <;>
        simp [terminatePod, hd, ho, ih]

/-- The three early-return branches of `findAndKillOverThreshold` coincide
with acting on the (then empty) pipeline, so the tick is one map-filter
pipeline. -/
theorem findAndKill_eq_act (cfg : Config) (cl : Cluster) (fs : CgroupFS) :
    findAndKillOverThreshold cfg cl fs =
      actOnCandidates cfg cl (sortBySwapDesc (resolveCandidates
        (buildProtectedMap cfg.protectedNamespaces) cl
        ((scanCgroupsForSwap fs).filter
          (fun c => c.swapPercent > cfg.swapThresholdPercent)))) := by
  unfold findAndKillOverThreshold
  simp only []
  split_ifs with h1 h2 h3
  · rw [h1]
    simp [resolveCandidates, sortBySwapDesc, actOnCandidates]
  · rw [h2]
    simp [resolveCandidates, sortBySwapDesc, actOnCandidates]
  · rw [h3]
    simp [sortBySwapDesc, actOnCandidates]
  · rfl

/-- Master characterisation of the delete RPCs of one tick: a call is issued
exactly for the non-dry-run resolutions of an over-threshold scanned pod
whose cached view is present, not yet terminating, and not protected. -/
theorem mem_tickDeleteCalls_iff (cfg : Config) (cl : Cluster) (fs : CgroupFS)
    (call : DeleteCall) :
    call ∈ tickDeleteCalls cfg cl fs ↔
      cfg.dryRun = false ∧ ∃ sp pv,
        findVal call.uid (scanAssoc fs) = some sp ∧
        sp > cfg.swapThresholdPercent ∧
        cl.cache call.uid = some pv ∧
        pv.deletionTimestamp = none ∧
        buildProtectedMap cfg.protectedNamespaces pv.ns = false ∧
        call.ns = pv.ns ∧ call.name = pv.name ∧
        call.result = cl.deleteOutcome pv.ns pv.name := by
  unfold tickDeleteCalls
  rw [findAndKill_eq_act, act_deleteCalls]
  by_cases hd : cfg.dryRun = true
  case pos => simp [hd]
  case neg =>
    have hd2 : cfg.dryRun = false := Bool.eq_false_iff.mpr hd
    rw [if_neg hd]
    constructor
    · intro h
      rcases List.mem_map.mp h with ⟨c, hcs, hcall⟩
      rw [mem_sortBySwapDesc] at hcs
      rcases (mem_resolveCandidates _ _ _ _).mp hcs with
        ⟨c₀, hc₀, pv, hcache, hdt, hprot, rfl⟩
      rcases List.mem_filter.mp hc₀ with ⟨hc₀c, hthr⟩
      rcases List.mem_map.mp hc₀c with ⟨e, he, hec⟩
      have hfv : findVal c₀.uid (scanAssoc fs) = some c₀.swapPercent := by
        have h1 : c₀.uid = e.1 := by rw [← hec]
        have h2 : c₀.swapPercent = e.2 := by rw [← hec]
        rw [h1, h2]
        exact findVal_of_mem_nodup (nodup_keys_scanAssoc fs) (by simpa using he)
      subst hcall
      exact ⟨hd2, c₀.swapPercent, pv, hfv, by simpa using hthr, hcache, hdt,
        hprot, rfl, rfl, rfl⟩
    · rintro ⟨-, sp, pv, hfv, hthr, hcache, hdt, hprot, hns, hname, hres⟩
      obtain ⟨cuid, cns, cname, cres⟩ := call
      simp only at hfv hcache hns hname hres
      subst hns
      subst hname
      subst hres
      have he : (cuid, sp) ∈ scanAssoc fs := mem_of_findVal_some hfv
      have hcand : (⟨cuid, [], [], sp⟩ : PodCandidate) ∈ scanCgroupsForSwap fs :=
        List.mem_map.mpr ⟨(cuid, sp), he, rfl⟩
      have hfil : (⟨cuid, [], [], sp⟩ : PodCandidate) ∈
          (scanCgroupsForSwap fs).filter
            (fun c => c.swapPercent > cfg.swapThresholdPercent) :=
        List.mem_filter.mpr ⟨hcand, by simpa using hthr⟩
      have hres2 : (⟨cuid, pv.ns, pv.name, sp⟩ : PodCandidate) ∈
          resolveCandidates (buildProtectedMap cfg.protectedNamespaces) cl
            ((scanCgroupsForSwap fs).filter
              (fun c => c.swapPercent > cfg.swapThresholdPercent)) :=
        (mem_resolveCandidates _ _ _ _).mpr
          ⟨⟨cuid, [], [], sp⟩, hfil, pv, hcache, hdt, hprot, rfl⟩
      exact List.mem_map.mpr
        ⟨⟨cuid, pv.ns, pv.name, sp⟩, (mem_sortBySwapDesc _ _).mpr hres2, rfl⟩

/-! ## Further pipeline lemmas -/

/-- In dry-run mode no tick ever issues a delete RPC. -/
theorem tickDeleteCalls_eq_nil_of_dryRun (cfg : Config) (cl : Cluster)
    (fs : CgroupFS) (hdry : cfg.dryRun = true) :
    tickDeleteCalls cfg cl fs = [] := by
  rw [List.eq_nil_iff_forall_not_mem]
  intro call hc
  rcases (mem_tickDeleteCalls_iff cfg cl fs call).mp hc with ⟨hfalse, -⟩
  rw [hdry] at hfalse
  cases hfalse

/-- In dry-run mode the delete RPCs accumulated over any number of ticks
stay empty. -/
theorem runTicks_deleteCalls_dry (cfg : Config) (cl : Cluster) (fs : CgroupFS)
    (hdry : cfg.dryRun = true) : ∀ n, (runTicks cfg cl fs n).deleteCalls = [] := by
  intro n
  induction n with
  | zero => rfl
  | succ k ih =>
    have h := tickDeleteCalls_eq_nil_of_dryRun cfg cl fs hdry
    rw [tickDeleteCalls] at h
    simp [runTicks, appendEffects, ih, h]

/-! ## Lemmas: the string functions behind `ExtractPodUID` -/

theorem not_infix_of_mem_not_mem {c : Char} {m s : Str} (hc : c ∈ m)
    (hs : c ∉ s) : ¬ (m <:+: s) :=
  fun h => hs (h.sublist.subset hc)

theorem splitOnChar_no_sep (sep : Char) :
    ∀ A : Str, sep ∉ A → splitOnChar sep A = [A] := by
  intro A
  induction A with
  | nil => intro _; rfl
  | cons a A' ih =>
    intro h
    have ha : ¬ a = sep := fun he => h (by rw [he]; exact List.mem_cons_self _ _)
    simp only [splitOnChar, if_neg ha]
    rw [ih (fun hs => h (List.mem_cons_of_mem _ hs))]

theorem splitOnChar_append_cons (sep : Char) :
    ∀ (A r : Str), sep ∉ A →
      splitOnChar sep (A ++ sep :: r) = A :: splitOnChar sep r := by
  intro A
  induction A with
  | nil =>
    intro r _
    simp [List.nil_append, splitOnChar]
  | cons a A' ih =>
    intro r h
    have ha : ¬ a = sep := fun he => h (by rw [he]; exact List.mem_cons_self _ _)
    rw [List.cons_append]
    simp only [splitOnChar, if_neg ha]
    rw [ih r (fun hs => h (List.mem_cons_of_mem _ hs))]

theorem afterLast_eq_none (m : Str) (hm : m ≠ []) :
    ∀ s : Str, ¬ (m <:+: s) → afterLast m s = none := by
  intro s
  induction s with
  | nil =>
    intro _
    simp [afterLast, hm]
  | cons c rest ih =>
    intro h
    have h1 : ¬ (m <:+: rest) := fun hi => h (List.infix_cons hi)
    have h2 : List.isPrefixOf m (c :: rest) = false := by
      rw [Bool.eq_false_iff]
      intro hp
      exact h (List.isPrefixOf_iff_prefix.mp hp).isInfix
    simp only [afterLast]
    rw [ih h1, h2]
    simp

theorem afterLast_append_marker (m u : Str) (hm : m ≠ [])
    (h : ¬ (m <:+: (m.drop 1 ++ u))) : afterLast m (m ++ u) = some u := by
  cases m with
  | nil => exact absurd rfl hm
  | cons c m' =>
    have hnone : afterLast (c :: m') (m' ++ u) = none :=
      afterLast_eq_none (c :: m') hm (m' ++ u) (by simpa using h)
    have hp : List.isPrefixOf (c :: m') ((c :: m') ++ u) = true :=
      List.isPrefixOf_iff_prefix.mpr (List.prefix_append (c :: m') u)
    rw [List.cons_append]
    simp only [afterLast]
    rw [hnone]
    rw [show List.isPrefixOf (c :: m') (c :: (m' ++ u)) = true from
      by rw [← List.cons_append]; exact hp]
    simp only [if_true]
    rw [← List.cons_append, List.drop_left]

theorem afterLast_append_left (m u : Str) :
    ∀ p s : Str, afterLast m s = some u → afterLast m (p ++ s) = some u := by
  intro p
  induction p with
  | nil => intro s h; simpa using h
  | cons a p' ih =>
    intro s h
    rw [List.cons_append]
    simp only [afterLast]
    rw [ih s h]

theorem endsWith_append (suf pre : Str) : endsWith suf (pre ++ suf) = true :=
  decide_eq_true (List.suffix_append pre suf)

theorem dropEnding_append (suf pre : Str) : dropEnding suf (pre ++ suf) = pre := by
  rw [dropEnding, if_pos (endsWith_append suf pre)]
  rw [List.length_append, Nat.add_sub_cancel, List.take_left]

theorem extractPodUIDFromParts_skip (part : Str) (rest : List Str)
    (h : afterLast strPodMarker (dropEnding strSliceDotted part) = none) :
    extractPodUIDFromParts (part :: rest) = extractPodUIDFromParts rest := by
  simp only [extractPodUIDFromParts]
  split
  · rw [h]
  · rfl

/-! ## The claims -/

/-- C1: for every tick and every input state, a pod whose namespace is in
`protected_namespaces` is never the target of a pod delete API call — the
resolve step drops such candidates before `terminatePod` is invoked,
regardless of their swap ratio. -/
theorem protected_namespace_never_deleted (cfg : Config) (cl : Cluster)
    (fs : CgroupFS) (call : DeleteCall)
    (hc : call ∈ tickDeleteCalls cfg cl fs) :
    call.ns ∉ cfg.protectedNamespaces := by
  rcases (mem_tickDeleteCalls_iff cfg cl fs call).mp hc with
    ⟨-, sp, pv, -, -, -, -, hprot, hns, -, -⟩
  intro hmem
  rw [hns] at hmem
  rw [← buildProtectedMap_eq_mem cfg.protectedNamespaces pv.ns] at hmem
  rw [hprot] at hmem
  cases hmem

/-- Closed instance of C1: the concrete tick issues a delete call and its
namespace is outside the protected set. -/
theorem protected_namespace_never_deleted_instance :
    (⟨wUid, wNsDefault, wNameVictim, none⟩ : DeleteCall) ∈
        tickDeleteCalls wCfg wCluster wFS ∧
      (⟨wUid, wNsDefault, wNameVictim, none⟩ : DeleteCall).ns ∉
        wCfg.protectedNamespaces := by
  have hmem : (⟨wUid, wNsDefault, wNameVictim, none⟩ : DeleteCall) ∈
      tickDeleteCalls wCfg wCluster wFS := by
    rw [mem_tickDeleteCalls_iff]
    refine ⟨rfl, 25 / 2, wPod, ?_, by norm_num [wCfg], by decide, by decide,
      by decide, rfl, rfl, rfl⟩
    have h1 : containerSwapPercent wMetricsA = 25 / 2 := by
      norm_num [containerSwapPercent, wMetricsA]
    have hq : extractQoS wPathA = strBurstable := by decide
    have hu : extractPodUID wPathA = wUid := by decide
    have hu0 : ¬ extractPodUID wPathA = [] := by decide
    have hw0 : ¬ wUid = [] := by decide
    have hsw : ¬ wMetricsA.swapCurrent = 0 := by decide
    simp only [scanAssoc, wFS, List.foldl_cons, List.foldl_nil, scanStep]
    simp [hq, hu, hu0, hw0, hsw, h1, updateMax, findVal]
  exact ⟨hmem, protected_namespace_never_deleted wCfg wCluster wFS _ hmem⟩

/-- C2: a pod whose cached `PodView` has a non-null deletion timestamp is
never the target of a delete API call — the resolve step skips it before
`terminatePod` is invoked. -/
theorem terminating_pod_never_deleted (cfg : Config) (cl : Cluster)
    (fs : CgroupFS) (uid : Str) (pv : PodView) (ts : Int)
    (hcache : cl.cache uid = some pv) (hdt : pv.deletionTimestamp = some ts) :
    ∀ call ∈ tickDeleteCalls cfg cl fs, call.uid ≠ uid := by
  intro call hc heq
  rcases (mem_tickDeleteCalls_iff cfg cl fs call).mp hc with
    ⟨-, sp, pv', -, -, hcache', hdt', -, -, -, -⟩
  rw [heq, hcache] at hcache'
  injection hcache' with h
  subst h
  rw [hdt] at hdt'
  cases hdt'

/-- Closed instance of C2: against a cache also holding a terminating pod,
the concrete tick issues a delete call, and it does not originate from the
terminating pod's UID. -/
theorem terminating_pod_never_deleted_instance :
    (⟨wUid, wNsDefault, wNameVictim, none⟩ : DeleteCall) ∈
        tickDeleteCalls wCfg wCluster2 wFS ∧
      (⟨wUid, wNsDefault, wNameVictim, none⟩ : DeleteCall).uid ≠ wUid2 := by
  have hmem : (⟨wUid, wNsDefault, wNameVictim, none⟩ : DeleteCall) ∈
      tickDeleteCalls wCfg wCluster2 wFS := by
    rw [mem_tickDeleteCalls_iff]
    refine ⟨rfl, 25 / 2, wPod, ?_, by norm_num [wCfg], by decide, by decide,
      by decide, rfl, rfl, rfl⟩
    have h1 : containerSwapPercent wMetricsA = 25 / 2 := by
      norm_num [containerSwapPercent, wMetricsA]
    have hq : extractQoS wPathA = strBurstable := by decide
    have hu : extractPodUID wPathA = wUid := by decide
    have hu0 : ¬ extractPodUID wPathA = [] := by decide
    have hw0 : ¬ wUid = [] := by decide
    have hsw : ¬ wMetricsA.swapCurrent = 0 := by decide
    simp only [scanAssoc, wFS, List.foldl_cons, List.foldl_nil, scanStep]
    simp [hq, hu, hu0, hw0, hsw, h1, updateMax, findVal]
  exact ⟨hmem, terminating_pod_never_deleted wCfg wCluster2 wFS wUid2 wPodTerm 5
    (by decide) (by decide) _ hmem⟩

/-- C3 counterexample: with `dry_run` set, `terminatePod` emits no event at
all, although the very same state emits the `Soomkilled` event when
`dry_run` is off — the dry run does not act "as if deleting" with respect
to events. -/
theorem dry_run_emits_no_event :
    (terminatePod wCfgDry wCluster wCand).1.events = [] ∧
      (terminatePod wCfg wCluster wCand).1.events =
        [⟨wUid, wNameVictim, wNode, 25 / 2⟩] := by
  constructor
  · simp [terminatePod, wCfgDry]
  · simp [terminatePod, wCfg, wCluster, wCand, wPod, wUid]

/-- C3 (amended): when `dry_run` is true, `terminatePod` logs the would-delete
decision and returns success while emitting no event and issuing no delete
call, and the delete RPCs accumulated over any number of ticks stay zero. -/
theorem dry_run_no_delete_calls (cfg : Config) (cl : Cluster) (fs : CgroupFS)
    (cand : PodCandidate) (n : Nat) (hdry : cfg.dryRun = true) :
    terminatePod cfg cl cand = (⟨[], [], 1⟩, Except.ok ()) ∧
      (runTicks cfg cl fs n).deleteCalls = [] :=
  ⟨by simp [terminatePod, hdry], runTicks_deleteCalls_dry cfg cl fs hdry n⟩

/-- Closed instance of C3 (amended) over three ticks. -/
theorem dry_run_no_delete_calls_instance :
    terminatePod wCfgDry wCluster wCand = (⟨[], [], 1⟩, Except.ok ()) ∧
      (runTicks wCfgDry wCluster wFS 3).deleteCalls = [] :=
  dry_run_no_delete_calls wCfgDry wCluster wFS wCand 3 rfl

/-- C4 counterexample: a delete failing with `NotFound` is not treated as
success — `terminatePod` returns the wrapped error. -/
theorem notfound_delete_returns_error :
    (terminatePod wCfg wClusterNF wCand).2 =
      Except.error (GoErr.deleteFailed wNsDefault wNameVictim K8sErr.notFound) ∧
      (terminatePod wCfg wClusterNF wCand).2 ≠ Except.ok () := by
  constructor
  · simp [terminatePod, wCfg, wClusterNF, wCand]
  · simp [terminatePod, wCfg, wClusterNF, wCand]

/-- C4 (amended): `terminatePod` surfaces every delete failure, `NotFound`
included, as a wrapped error; there is no `NotFound` special case. -/
theorem terminate_surfaces_delete_errors (cfg : Config) (cl : Cluster)
    (cand : PodCandidate) (e : K8sErr) (hdry : cfg.dryRun = false)
    (herr : cl.deleteOutcome cand.ns cand.name = some e) :
    (terminatePod cfg cl cand).2 =
      Except.error (GoErr.deleteFailed cand.ns cand.name e) := by
  simp [terminatePod, hdry, herr]

/-- Closed instance of C4 (amended) at a `NotFound` outcome. -/
theorem terminate_surfaces_delete_errors_instance :
    (terminatePod wCfg wClusterNF wCand).2 =
      Except.error (GoErr.deleteFailed wNsDefault wNameVictim K8sErr.notFound) :=
  terminate_surfaces_delete_errors wCfg wClusterNF wCand K8sErr.notFound rfl rfl

/-- C5: for every pod UID with at least one contributing scanned container,
the aggregated `swap_percent` of the scan phase is the maximum — an element
of, and an upper bound of — the container percentages of that pod, for any
multiset of container metrics. -/
theorem swap_percent_is_max_over_containers (fs : CgroupFS) (uid : Str)
    (hne : contribRatios fs uid fs.paths ≠ []) :
    ∃ c ∈ scanCgroupsForSwap fs, c.uid = uid ∧
      c.swapPercent ∈ contribRatios fs uid fs.paths ∧
      ∀ r ∈ contribRatios fs uid fs.paths, r ≤ c.swapPercent := by
  obtain ⟨w, hw, hmem, hub⟩ := foldMax_none_char _ hne
  have hfv : findVal uid (scanAssoc fs) = some w := by
    rw [findVal_scanAssoc]
    exact hw
  exact ⟨⟨uid, [], [], w⟩,
    List.mem_map.mpr ⟨(uid, w), mem_of_findVal_some hfv, rfl⟩, rfl, hmem, hub⟩

/-- Closed instance of C5 on a pod with two containers at 12.5 % and 50 %. -/
theorem swap_percent_is_max_over_containers_instance :
    ∃ c ∈ scanCgroupsForSwap wFS2, c.uid = wUid ∧
      c.swapPercent ∈ contribRatios wFS2 wUid wFS2.paths ∧
      ∀ r ∈ contribRatios wFS2 wUid wFS2.paths, r ≤ c.swapPercent :=
  swap_percent_is_max_over_containers wFS2 wUid (by decide)

/-- C6: only cgroup paths whose extracted QoS class is `burstable`
contribute to the candidate map — dropping every path classified otherwise
(guaranteed, besteffort or unrecognized) leaves the scan output unchanged,
for any swap values. -/
theorem only_burstable_paths_contribute (paths : List Str)
    (mf : Str → Option ContainerMetrics) :
    scanCgroupsForSwap ⟨paths, mf⟩ =
      scanCgroupsForSwap
        ⟨paths.filter (fun p => extractQoS p = strBurstable), mf⟩ := by
  unfold scanCgroupsForSwap scanAssoc
  have h : ∀ (l : List Str) (acc : List (Str × ℚ)),
      l.foldl (scanStep ⟨paths, mf⟩) acc =
        (l.filter (fun p => extractQoS p = strBurstable)).foldl
          (scanStep ⟨paths, mf⟩) acc := by
    intro l
    induction l with
    | nil => intro acc; rfl
    | cons p rest ih =>
      intro acc
      by_cases hq : extractQoS p = strBurstable
      · rw [List.foldl_cons, List.filter_cons, if_pos (by simpa using hq),
          List.foldl_cons, ih]
      · have hs : scanStep ⟨paths, mf⟩ acc p = acc := by simp [scanStep, hq]
        rw [List.foldl_cons, hs, List.filter_cons, if_neg (by simpa using hq),
          ih]
  rw [h]
  rfl

/-- C7: the failing input for the unimplemented kill counter — the concrete
tick resolves one pod, issues one successful (non-dry-run) delete RPC and
reports one kill, yet the `pods_killed_total` counter is left untouched at
zero, because the v2 controller never increments it. -/
theorem pods_killed_counter_not_incremented :
    (reconcile wCfg wCluster wFS ⟨0, 0⟩).1.2 = 1 ∧
      (reconcile wCfg wCluster wFS ⟨0, 0⟩).1.1.deleteCalls =
        [⟨wUid, wNsDefault, wNameVictim, none⟩] ∧
      (reconcile wCfg wCluster wFS ⟨0, 0⟩).2.podsKilledTotal = 0 := by
  have heval : findAndKillOverThreshold wCfg wCluster wFS =
      (⟨[⟨wUid, wNsDefault, wNameVictim, none⟩],
        [⟨wUid, wNameVictim, wNode, 25 / 2⟩], 0⟩, 1) := by
    have h1 : containerSwapPercent wMetricsA = 25 / 2 := by
      norm_num [containerSwapPercent, wMetricsA]
    have hq : extractQoS wPathA = strBurstable := by decide
    have hu : extractPodUID wPathA = wUid := by decide
    have hu0 : ¬ extractPodUID wPathA = [] := by decide
    have hw0 : ¬ wUid = [] := by decide
    have hsw : ¬ wMetricsA.swapCurrent = 0 := by decide
    have hscan : scanAssoc wFS = [(wUid, 25 / 2)] := by
      simp only [scanAssoc, wFS, List.foldl_cons, List.foldl_nil, scanStep]
      simp [hq, hu, hu0, hw0, hsw, h1, updateMax]
    have hthr : ((25 : ℚ) / 2 > 1) := by norm_num
    rw [findAndKill_eq_act]
    simp only [scanCgroupsForSwap, hscan, List.map_cons, List.map_nil]
    simp only [List.filter_cons, List.filter_nil]
    rw [if_pos (by simpa using hthr)]
    simp only [resolveCandidates, wCluster]
    norm_num [wCfg, wPod, buildProtectedMap, wNsDefault, wNsKube,
      sortBySwapDesc, insertBySwapDesc, actOnCandidates, terminatePod,
      appendEffects, noEffects]
  refine ⟨?_, ?_, rfl⟩
  · rw [reconcile, heval]
  · rw [reconcile, heval]

/-- C8 counterexample: the literal `max` in `memory.max` is normalized to
the sentinel `2^62`, and because the sentinel is positive the per-container
ratio is *not* guarded to zero — a container with the sentinel limit and
non-zero swap gets a non-zero ratio (here 50 %). -/
theorem sentinel_memory_max_ratio_nonzero :
    readMemoryMax strMaxLit = some (2 ^ 62) ∧
      containerSwapPercent ⟨2 ^ 61, 0, 2 ^ 62, psiZero⟩ = 50 ∧
      containerSwapPercent ⟨2 ^ 61, 0, 2 ^ 62, psiZero⟩ ≠ 0 := by
  refine ⟨rfl, ?_, ?_⟩
  · rw [containerSwapPercent, if_pos (by norm_num)]
    norm_num
  · rw [containerSwapPercent, if_pos (by norm_num)]
    norm_num

/-- C8 (amended): the per-container ratio equals
`swap_current / memory_max × 100` whenever `memory_max` is positive — the
sentinel included — and is zero only when `memory_max ≤ 0`; the literal
`max` is normalized to exactly `2^62 ≥ 2^62` bytes. -/
theorem container_ratio_guard (m : ContainerMetrics) :
    (0 < m.memoryMax →
        containerSwapPercent m = (m.swapCurrent : ℚ) / (m.memoryMax : ℚ) * 100) ∧
      (m.memoryMax ≤ 0 → containerSwapPercent m = 0) ∧
      readMemoryMax strMaxLit = some (2 ^ 62) ∧ ((2 : Int) ^ 62 ≥ 2 ^ 62) := by
  refine ⟨fun h => ?_, fun h => ?_, rfl, le_refl _⟩
  · rw [containerSwapPercent, if_pos h]
  · rw [containerSwapPercent, if_neg (not_lt.mpr h)]

/-- Closed instance of C8 (amended) at a positive and a non-positive limit. -/
theorem container_ratio_guard_instance :
    containerSwapPercent ⟨1, 0, 2, psiZero⟩ = (1 : ℚ) / 2 * 100 ∧
      containerSwapPercent ⟨1, 0, -3, psiZero⟩ = 0 :=
  ⟨(container_ratio_guard ⟨1, 0, 2, psiZero⟩).1 (by norm_num),
    (container_ratio_guard ⟨1, 0, -3, psiZero⟩).2.1 (by norm_num)⟩

/-- C10: the per-tick delete set is a pure function of the cache contents
and the filesystem contents — permuting the cgroup enumeration (and with it
the candidate-map iteration order) leaves the set of pods targeted for
deletion unchanged. -/
theorem tick_delete_set_deterministic (cfg : Config) (cl : Cluster)
    (mf : Str → Option ContainerMetrics) (l₁ l₂ : List Str)
    (hperm : l₁.Perm l₂) :
    tickTargetSet cfg cl ⟨l₁, mf⟩ = tickTargetSet cfg cl ⟨l₂, mf⟩ := by
  have hfv : ∀ uid : Str,
      findVal uid (scanAssoc ⟨l₁, mf⟩) = findVal uid (scanAssoc ⟨l₂, mf⟩) := by
    intro uid
    rw [findVal_scanAssoc, findVal_scanAssoc]
    exact foldMax_none_perm ((hperm.filter _).map _)
  ext call
  simp only [tickTargetSet, List.mem_toFinset]
  rw [mem_tickDeleteCalls_iff, mem_tickDeleteCalls_iff, hfv call.uid]

/-- Closed instance of C10: swapping the enumeration order of two container
cgroups leaves the delete set unchanged. -/
theorem tick_delete_set_deterministic_instance :
    tickTargetSet wCfg wCluster ⟨[wPathA, wPathB], wFS2.metricsOf⟩ =
      tickTargetSet wCfg wCluster ⟨[wPathB, wPathA], wFS2.metricsOf⟩ :=
  tick_delete_set_deterministic wCfg wCluster wFS2.metricsOf _ _
    (List.Perm.swap wPathB wPathA [])

/-- C9: for the cgroup path form `-pod<uid_with_underscores>.slice`, pod-UID
extraction scans the `.slice` components, takes the substring after the last
`-pod`, and converts underscores to dashes, yielding the dash-normalised UID
of the orchestrator's canonical form (for any non-empty UID free of dashes,
as the cgroup underscore form is, and of path separators). -/
theorem pod_uid_extraction_normalises (uid : Str) (hne : uid ≠ [])
    (hdash : '-' ∉ uid) (hslash : '/' ∉ uid) :
    extractPodUID (burstablePodPath uid) = underscoresToDashes uid := by
  have hA : (("kubepods.slice/kubepods-burstable.slice/kubepods-burstable-pod").toList) =
      (("kubepods.slice").toList) ++ '/' ::
        ((("kubepods-burstable.slice").toList) ++ '/' ::
          (("kubepods-burstable-pod").toList)) := by decide
  have hB : ((".slice/cri-containerd-abc.scope").toList) =
      strSliceDotted ++ '/' :: (("cri-containerd-abc.scope").toList) := by decide
  have hpath : burstablePodPath uid =
      (("kubepods.slice").toList) ++ '/' ::
        ((("kubepods-burstable.slice").toList) ++ '/' ::
          (((("kubepods-burstable-pod").toList) ++ uid ++ strSliceDotted) ++ '/' ::
            (("cri-containerd-abc.scope").toList))) := by
    rw [burstablePodPath, hA, hB]
    simp [List.append_assoc]
  have h3 : '/' ∉ ((("kubepods-burstable-pod").toList) ++ uid ++ strSliceDotted) := by
    intro hmem
    rcases List.mem_append.mp hmem with h | h
    · rcases List.mem_append.mp h with h | h
      · exact absurd h (by decide)
      · exact hslash h
    · exact absurd h (by decide)
  rw [extractPodUID, hpath]
  rw [splitOnChar_append_cons _ _ _ (by decide)]
  rw [splitOnChar_append_cons _ _ _ (by decide)]
  rw [splitOnChar_append_cons _ _ _ h3]
  rw [splitOnChar_no_sep _ _ (by decide)]
  rw [extractPodUIDFromParts_skip _ _ (by decide)]
  rw [extractPodUIDFromParts_skip _ _ (by decide)]
  have hinfix : ¬ (strPodMarker <:+: ((strPodMarker.drop 1) ++ uid)) := by
    apply not_infix_of_mem_not_mem (show '-' ∈ strPodMarker by decide)
    intro hmem
    rcases List.mem_append.mp hmem with h | h
    · exact absurd h (by decide)
    · exact hdash h
  have hmarker : afterLast strPodMarker ((("kubepods-burstable-pod").toList) ++ uid) =
      some uid := by
    rw [show (("kubepods-burstable-pod").toList) =
        (("kubepods-burstable").toList) ++ strPodMarker from by decide]
    rw [List.append_assoc]
    exact afterLast_append_left _ _ _ _
      (afterLast_append_marker strPodMarker uid (by decide) hinfix)
  simp only [extractPodUIDFromParts]
  rw [if_pos (endsWith_append strSliceDotted _)]
  rw [dropEnding_append, hmarker]
  simp only [if_neg hne]

/-- Closed instance of C9: the spec's S8 path yields the dash-normalised
UID. -/
theorem pod_uid_extraction_normalises_instance :
    extractPodUID
        (burstablePodPath (("aaaa1111_2222_3333_4444_555566667777").toList)) =
      (("aaaa1111-2222-3333-4444-555566667777").toList) :=
  (pod_uid_extraction_normalises
    ((("aaaa1111_2222_3333_4444_555566667777").toList))
    (by decide) (by decide) (by decide)).trans (by decide)
